import Mathlib

/-!
Verification of the CSV-to-Postgres importer (`src/index.js`).

The source is embedded shallowly:

* Text is modelled as `String` / `List Char`; JS `String.prototype.trim` is
  `jsTrim` (whitespace class `isJsSpace`, covering the characters JS trims
  that can occur in this development).
* JS objects built by the program (CSV records and the nested JSON values)
  are modelled as association lists with last-write-wins assignment
  (`objSet` / `jset`); the prototype chain is not modelled.
* JS numbers: `parseInt(s, 10)` returns an IEEE double; it is modelled by
  `JsNum` (`NaN`, an infinity, or a finite integer-valued double carried as
  the exact integer the double represents), with `roundDoubleNat` performing
  the round-half-to-even cut to 53 significant bits and the overflow to
  infinity at `2^1024`.  `parseInt` only produces integer-valued doubles, so
  this representation is exact.
* The PostgreSQL connection is modelled as a list of committed rows together
  with BEGIN/COMMIT/ROLLBACK transaction semantics (`importCsvRun`), and the
  two aggregate queries of `printAgeDistribution` are translated to list
  computations over the ages of the committed rows.
-/

/-- The whitespace class of JS `String.prototype.trim` (the members that are
single scalar values; the full ECMA class also contains further Unicode
space separators, none of which occur in this development). -/
def isJsSpace (c : Char) : Bool :=
  c = ' ' || c = '\t' || c = '\n' || c = '\r' ||
  c = Char.ofNat 0x0B || c = Char.ofNat 0x0C || c = Char.ofNat 0xA0 ||
  c = Char.ofNat 0xFEFF || c = Char.ofNat 0x2028 || c = Char.ofNat 0x2029

/-- Remove a maximal trailing run of characters satisfying `p`: keep `c`
unless everything after it was dropped and `c` itself satisfies `p`. -/
def dropTrailing (p : Char → Bool) : List Char → List Char
  | [] => []
  | c :: rest =>
    match dropTrailing p rest with
    | [] => if p c then [] else [c]
    | r => c :: r

/-- JS `s.trim()`: strip leading and trailing whitespace. -/
def jsTrim (s : String) : String :=
  ⟨dropTrailing isJsSpace (s.data.dropWhile isJsSpace)⟩

/-- JS `s.startsWith(pre)` for the strings used by the mapper. -/
def jsStartsWith (s pre : String) : Bool :=
  pre.data.isPrefixOf s.data

/-- JS `s.slice(n)` (the keys involved are ASCII, so code units = chars). -/
def jsSlice (s : String) (n : Nat) : String :=
  ⟨s.data.drop n⟩

/-- JS `s.split(sep)` for a single-character separator: `"".split('.') = [""]`,
`"a.".split('.') = ["a", ""]`. -/
def splitOnChar (sep : Char) : List Char → List (List Char)
  | [] => [[]]
  | c :: rest =>
    if c = sep then [] :: splitOnChar sep rest
    else
      match splitOnChar sep rest with
      | [] => [[c]]
      | g :: gs => (c :: g) :: gs

/-- `k.split('.')` as strings. -/
def jsSplitDots (s : String) : List String :=
  (splitOnChar '.' s.data).map fun cs => ⟨cs⟩

/-- `src/index.js` line 75: `if (text.charCodeAt(0) === 0xfeff) i = 1;`. -/
def stripBom (cs : List Char) : List Char :=
  match cs with
  | c :: rest => if c = Char.ofNat 0xFEFF then rest else cs
  | [] => []

/-- The loop body of `readLineAsFields` (`src/index.js` lines 35-70).
Arguments: the remaining text, the `inQuotes` flag, the field accumulator
`cur`, and the fields already pushed.  Returns the fields of one record and
the unconsumed rest of the text.  The `if (i >= len)` block after the `while`
loop runs both when the loop ran out of input and when it exited via `break`
on a line terminator that was the last character, hence the extra `""` pushed
in the terminator equations when the rest is empty. -/
def rlLoop : List Char → Bool → String → List String → List String × List Char
  | [], _, cur, fields =>
    (if cur ≠ "" ∨ fields ≠ [] then fields ++ [cur] else fields, ([] : List Char))
  | '"' :: '"' :: rest, true, cur, fields => rlLoop rest true (cur.push '"') fields
  | '"' :: rest, inQ, cur, fields => rlLoop rest (!inQ) cur fields
  | ',' :: rest, false, cur, fields => rlLoop rest false "" (fields ++ [cur])
  | '\r' :: '\n' :: rest, false, cur, fields =>
    (if rest = [] then fields ++ [cur, ""] else fields ++ [cur], rest)
  | '\n' :: rest, false, cur, fields =>
    (if rest = [] then fields ++ [cur, ""] else fields ++ [cur], rest)
  | '\r' :: rest, false, cur, fields =>
    (if rest = [] then fields ++ [cur, ""] else fields ++ [cur], rest)
  | ch :: rest, inQ, cur, fields => rlLoop rest inQ (cur.push ch) fields

/-- `readLineAsFields` (`src/index.js` lines 35-70), started in the unquoted
state with empty accumulators, as the source's `while` loops do. -/
def readLineAsFields (cs : List Char) : List String × List Char :=
  rlLoop cs false "" []

/-- A parsed CSV record: JS object from header key to trimmed field value. -/
abbrev FlatRecord := List (String × String)

/-- JS object property assignment `rec[k] = v`: overwrite in place if the key
exists, append otherwise. -/
def objSet (obj : List (String × String)) (k v : String) : List (String × String) :=
  if obj.any (fun p => p.1 = k) then obj.map (fun p => if p.1 = k then (k, v) else p)
  else obj ++ [(k, v)]

/-- JS object property read `rec[k]` (`undefined` becomes `none`). -/
def objGet (rec : List (String × String)) (k : String) : Option String :=
  (rec.find? (fun p => p.1 = k)).map (·.2)

/-- `src/index.js` lines 80-82: build one record from the headers and the
padded fields; `rec[headers[k]] = fields[k] !== undefined ? fields[k].trim() : ''`. -/
def buildRec (headers fields : List String) : FlatRecord :=
  (List.range headers.length).foldl
    (fun r k =>
      objSet r (headers.getD k "")
        (match fields.get? k with
         | some f => jsTrim f
         | none => ""))
    []

/-- The `while (i < len)` record loop of `parseCSVText` (`src/index.js`
lines 76-83), with explicit fuel.  `parseCSVText` supplies fuel exceeding the
text length, which suffices because `rlLoop` consumes at least one character
of nonempty input (`rlLoop_snd_length_lt`). -/
def parseRowsFuel (headers : List String) : Nat → List Char → List FlatRecord
  | 0, _ => []
  | _, [] => []
  | fuel + 1, cs =>
    let fr := readLineAsFields cs
    if fr.1 = [""] ∧ fr.2 = [] then []
    else
      let fields := fr.1 ++ List.replicate (headers.length - fr.1.length) ""
      buildRec headers fields :: parseRowsFuel headers fuel fr.2

/-- `parseCSVText` (`src/index.js` lines 30-86). -/
def parseCSVText (text : String) : Except String (List FlatRecord) :=
  let cs := stripBom text.data
  let hr := readLineAsFields cs
  if hr.1.length = 0 then .error "No headers found in CSV"
  else
    let headers := hr.1.map jsTrim
    .ok (parseRowsFuel headers (cs.length + 1) hr.2)

/-- Whether an `Except` result is the error case. -/
def exceptIsError {ε α : Type} : Except ε α → Bool
  | .error _ => true
  | .ok _ => false

/-- The nested JSON values built by `setNested`: leaf strings or objects
(association lists, unique keys, insertion order). -/
inductive JValue where
  | str : String → JValue
  | obj : List (String × JValue) → JValue

/-- JS object assignment `cur[p] = v` on a nested-value object. -/
def jset (obj : List (String × JValue)) (k : String) (v : JValue) :
    List (String × JValue) :=
  if obj.any (fun p => p.1 = k) then obj.map (fun p => if p.1 = k then (k, v) else p)
  else obj ++ [(k, v)]

/-- JS object read `cur[p]` on a nested-value object. -/
def jget (obj : List (String × JValue)) (k : String) : Option JValue :=
  (obj.find? (fun p => p.1 = k)).map (·.2)

/-- `setNested` (`src/index.js` lines 16-28): walk `parts`, creating (or
replacing a non-object value by) an intermediate object at every step, and
assign the string value at the last part.  The source mutates `cur` in place;
this is the same computation by rebuilding. -/
def setNested (obj : List (String × JValue)) (parts : List String) (value : String) :
    List (String × JValue) :=
  match parts with
  | [] => obj
  | [p] => jset obj p (.str value)
  | p :: rest =>
    let sub :=
      match jget obj p with
      | some (.obj m) => m
      | _ => []
    jset obj p (.obj (setNested sub rest value))

/-- A JS number as `parseInt` can produce it: `NaN`, an infinity, or a
finite IEEE double.  `parseInt` only returns integer-valued doubles, so a
finite result is carried as the exact integer the double represents. -/
inductive JsNum where
  | nan : JsNum
  | posInf : JsNum
  | negInf : JsNum
  | finite : Int → JsNum
deriving DecidableEq

/-- JS `Number.isNaN`. -/
def JsNum.isNaN : JsNum → Bool
  | .nan => true
  | _ => false

/-- `bitLen` worker: structural recursion on a fuel (any fuel at least the
bit length of `n` gives the same answer), so that it reduces in the kernel. -/
def bitLenAux : Nat → Nat → Nat
  | 0, _ => 0
  | fuel + 1, n => if n = 0 then 0 else bitLenAux fuel (n / 2) + 1

/-- The number of binary digits of `n`: `0` for `0`, else `⌊log2 n⌋ + 1`. -/
def bitLen (n : Nat) : Nat := bitLenAux n n

/-- Round a natural number to the nearest IEEE double (round half to even):
values below `2^53` are representable exactly; a larger value is cut to its
top 53 significant bits with the remainder rounded to nearest, ties to the
even candidate; a rounded result of `2^1024` or more overflows to infinity
(`none`). -/
def roundDoubleNat (v : Nat) : Option Nat :=
  if v < 2 ^ 53 then some v
  else
    let e := bitLen v - 53
    let q := v / 2 ^ e
    let r := v % 2 ^ e
    let half := 2 ^ (e - 1)
    let q' := if half < r ∨ (r = half ∧ q % 2 = 1) then q + 1 else q
    if q' * 2 ^ e < 2 ^ 1024 then some (q' * 2 ^ e) else none

/-- The double `parseInt` returns once a sign and a non-empty digit prefix of
value `v` have been read: the rounded value, infinite on overflow. -/
def toJsDouble (sign : Int) (v : Nat) : JsNum :=
  match roundDoubleNat v with
  | some w => .finite (sign * w)
  | none => if sign < 0 then .negInf else .posInf

/-- JS `parseInt(s, 10)`: skip leading whitespace, read an optional sign,
then the longest prefix of decimal digits; no digits at all is `NaN`,
otherwise the signed digit value as an IEEE double. -/
def jsParseInt10 (s : String) : JsNum :=
  let cs := s.data.dropWhile isJsSpace
  let signed : Int × List Char :=
    match cs with
    | '-' :: rest => (-1, rest)
    | '+' :: rest => (1, rest)
    | _ => (1, cs)
  let digits := signed.2.takeWhile Char.isDigit
  if digits = [] then .nan
  else toJsDouble signed.1 (digits.foldl (fun acc c => acc * 10 + (c.toNat - '0'.toNat)) 0)

/-- Whether, after optional whitespace and an optional sign, the string starts
with a decimal digit — the condition under which JS `parseInt(s, 10)` does
not return `NaN`. -/
def signedDigitStart (s : String) : Bool :=
  match s.data.dropWhile isJsSpace with
  | [] => false
  | '-' :: rest => match rest with | c :: _ => c.isDigit | [] => false
  | '+' :: rest => match rest with | c :: _ => c.isDigit | [] => false
  | c :: _ => c.isDigit

/-- The mapped document (`src/index.js` lines 109-114): `address` and
`additional_info` are `none` when the corresponding builder object stayed
empty, mirroring `Object.keys(x).length ? x : null`. -/
structure Document where
  name : String
  age : JsNum
  address : Option (List (String × JValue))
  additional_info : Option (List (String × JValue))

/-- One step of the `for (const [k, vRaw] of Object.entries(rec))` loop of
`mapRecordToDb` (`src/index.js` lines 98-107), threading the `address` and
`additional` builder objects. -/
def mapFoldStep (acc : List (String × JValue) × List (String × JValue))
    (kv : String × String) : List (String × JValue) × List (String × JValue) :=
  if kv.1 = "name.firstName" ∨ kv.1 = "name.lastName" ∨ kv.1 = "age" then acc
  else if jsStartsWith kv.1 "address." then
    (setNested acc.1 (jsSplitDots (jsSlice kv.1 8)) kv.2, acc.2)
  else (acc.1, setNested acc.2 (jsSplitDots kv.1) kv.2)

/-- `mapRecordToDb` (`src/index.js` lines 87-116). -/
def mapRecordToDb (rec : FlatRecord) : Except String Document :=
  let firstName := jsTrim ((objGet rec "name.firstName").getD "")
  let lastName := jsTrim ((objGet rec "name.lastName").getD "")
  let ageRaw := jsTrim ((objGet rec "age").getD "")
  if firstName = "" ∨ lastName = "" ∨ ageRaw = "" then
    .error "Mandatory fields missing"
  else
    let age := jsParseInt10 ageRaw
    if age.isNaN then .error "Invalid age value"
    else
      let pair := rec.foldl mapFoldStep ([], [])
      .ok
        { name := firstName ++ " " ++ lastName
          age := age
          address := if pair.1.length ≠ 0 then some pair.1 else none
          additional_info := if pair.2.length ≠ 0 then some pair.2 else none }

/-- The documents that survive the per-row `try { mapRecordToDb } catch`
skip of `importCsvFile` (`src/index.js` lines 167-171), in order. -/
def validDocs (records : List FlatRecord) : List Document :=
  records.filterMap fun r => (mapRecordToDb r).toOption

/-- The batching loop of `importCsvFile` (`src/index.js` lines 165-175):
push each successfully mapped document, flush when the batch reaches
`BATCH_SIZE`, and flush the final partial batch after the loop.  Returns the
batches in the order the `insertBatch` calls are issued. -/
def importBatchesAux (B : Nat) : List FlatRecord → List Document → List (List Document)
  | [], batch => if batch.length > 0 then [batch] else []
  | rec :: rest, batch =>
    match mapRecordToDb rec with
    | .error _ => importBatchesAux B rest batch
    | .ok d =>
      let batch' := batch ++ [d]
      if batch'.length ≥ B then batch' :: importBatchesAux B rest []
      else importBatchesAux B rest batch'

/-- The batches issued by one run of `importCsvFile` over `records` with
batch size `B`. -/
def importBatches (records : List FlatRecord) (B : Nat) : List (List Document) :=
  importBatchesAux B records []

/-- `insertBatch` (`src/index.js` lines 118-133) issues exactly one
multi-row `INSERT` statement per call, except that it returns without
querying when `rows` is empty (`if (!rows.length) return;`). -/
def insertBatchStatementCount (rows : List Document) : Nat :=
  if rows.length = 0 then 0 else 1

/-- Modelled from the spec: the transactional relational store is an external
collaborator (spec sections 5-7); inside one `BEGIN`, batch inserts accumulate
pending rows that become visible only on `COMMIT`, and a failing insert makes
the run `ROLLBACK` so nothing pending is committed.  Failures of the store
are abstracted by the oracle `failsAt` over 1-based batch indices.  Returns
the pending rows on success or the index of the failing batch. -/
def sendBatches (failsAt : Nat → Bool) :
    Nat → List Document → List (List Document) → Except Nat (List Document)
  | _, pending, [] => .ok pending
  | k, pending, b :: rest =>
    if failsAt k then .error k
    else sendBatches failsAt (k + 1) (pending ++ b) rest

/-- One run of `importCsvFile`'s transaction (`src/index.js` lines 156-184)
against a store whose committed rows are `init`: `BEGIN`, send the batches,
then `COMMIT` on success (all pending rows become visible) or `ROLLBACK` and
rethrow on failure (the committed rows are unchanged).  Returns the outcome
surfaced to the caller and the committed rows afterwards. -/
def importCsvRun (init : List Document) (records : List FlatRecord) (B : Nat)
    (failsAt : Nat → Bool) : Except Nat Unit × List Document :=
  match sendBatches failsAt 1 [] (importBatches records B) with
  | .ok pending => (.ok (), init ++ pending)
  | .error k => (.error k, init)

/-- `age < 20` (first `CASE WHEN` of the distribution query,
`src/index.js` line 141). -/
def lt20Cond (a : Int) : Bool := a < 20

/-- `age >= 20 AND age <= 40` (`src/index.js` line 142). -/
def btw2040Cond (a : Int) : Bool := 20 ≤ a ∧ a ≤ 40

/-- `age > 40 AND age <= 60` (`src/index.js` line 143). -/
def btw4060Cond (a : Int) : Bool := 40 < a ∧ a ≤ 60

/-- `age > 60` (`src/index.js` line 144). -/
def gt60Cond (a : Int) : Bool := 60 < a

/-- `SUM(CASE WHEN cond THEN 1 ELSE 0 END)` over the `age` column. -/
def sqlSumCase (ages : List Int) (cond : Int → Bool) : Nat :=
  (ages.map fun a => if cond a then 1 else 0).sum

/-- JS `Math.round(num / den)` for `den > 0` under exact rational semantics:
`floor(num / den + 1/2)`, ties rounding up.  Computed as a natural-number
division; `pct_floor_characterization` (inside the C7 theorem) relates it to
the rational rounding it implements. -/
def jsMathRoundDiv (num den : Nat) : Nat :=
  (2 * num + den) / (2 * den)

/-- The `pct` closure of `printAgeDistribution` (`src/index.js` line 149):
`Math.round((n / total) * 100)`. -/
def pct (n total : Nat) : Nat :=
  jsMathRoundDiv (n * 100) total

/-- What `printAgeDistribution` prints: the "no data" message or the four
bucket percentages in source order. -/
inductive AgeReport where
  | noData
  | report (lt20 btw2040 btw4060 gt60 : Nat)
deriving DecidableEq

/-- `printAgeDistribution` (`src/index.js` lines 135-155), with the store's
`public.users` table abstracted to the list of its `age` values: `COUNT(*)`
is the length, and the bucket query is the four `SUM(CASE ...)` aggregates.
When the count is zero it prints the no-data message and returns before the
bucket query. -/
def printAgeDistribution (ages : List Int) : AgeReport :=
  let total := ages.length
  if total = 0 then .noData
  else
    .report (pct (sqlSumCase ages lt20Cond) total)
      (pct (sqlSumCase ages btw2040Cond) total)
      (pct (sqlSumCase ages btw4060Cond) total)
      (pct (sqlSumCase ages gt60Cond) total)

theorem rlLoop_snd_length_le (cs : List Char) (inQ : Bool) (cur : String)
    (fields : List String) : (rlLoop cs inQ cur fields).2.length ≤ cs.length := by
  induction cs, inQ, cur, fields using rlLoop.induct with
  | _ =>
    simp_all only [rlLoop]
    all_goals simp_all
    all_goals omega

theorem boolToNat_decide (P : Prop) [Decidable P] :
    (decide P).toNat = if P then 1 else 0 := by
  by_cases h : P <;> simp [h]

/-- C6: parsing the data line `a,"b""c",d` yields the literal value `b"c` for
the middle column (a doubled `""` inside quotes unescapes to one `"`), and a
line break inside quotes stays inside one field of one record. -/
theorem c6_quote_roundtrip :
    parseCSVText "h1,h2,h3\na,\"b\"\"c\",d" =
      .ok [[("h1", "a"), ("h2", "b\"c"), ("h3", "d")]] ∧
    parseCSVText "h\n\"x\ny\"" = .ok [[("h", "x\ny")]] :=
  ⟨rfl, rfl⟩

/-- C7: the four age buckets are mutually exclusive and exhaustive over all
integers, every negative age lands in the `< 20` bucket, each percentage is
the bucket count over the total times 100 rounded to the nearest integer
(ties up), ages `[5, 25, 45, 65]` report `(25, 25, 25, 25)`, and an empty
table reports the no-data case without computing buckets. -/
theorem c7_age_buckets :
    (∀ a : Int,
      (lt20Cond a).toNat + (btw2040Cond a).toNat + (btw4060Cond a).toNat +
        (gt60Cond a).toNat = 1) ∧
    (∀ n : Nat, lt20Cond (-(n : Int) - 1) = true) ∧
    (∀ n t : Nat, pct n (t + 1) = ⌊((n : ℚ) / (t + 1)) * 100 + 1 / 2⌋₊) ∧
    printAgeDistribution [5, 25, 45, 65] = .report 25 25 25 25 ∧
    printAgeDistribution [] = .noData := by
  refine ⟨fun a => ?_, fun n => ?_, fun n t => ?_, by decide, by decide⟩
  · simp only [lt20Cond, btw2040Cond, btw4060Cond, gt60Cond, boolToNat_decide]
    split_ifs <;> omega
  · simp only [lt20Cond, decide_eq_true_eq]
    omega
  · have h1 : ((n : ℚ) / (t + 1)) * 100 + 1 / 2
        = ((2 * (n * 100) + (t + 1) : ℕ) : ℚ) / ((2 * (t + 1) : ℕ) : ℚ) := by
      have : ((t : ℚ) + 1) ≠ 0 := by positivity
      push_cast
      field_simp
      ring
    rw [pct, jsMathRoundDiv, h1, Nat.floor_div_nat, Nat.floor_natCast]

theorem rlLoop_snd_length_lt (cs : List Char) (inQ : Bool) (cur : String)
    (fields : List String) (h : cs ≠ []) :
    (rlLoop cs inQ cur fields).2.length < cs.length := by
  induction cs, inQ, cur, fields using rlLoop.induct with
  | case1 => exact absurd rfl h
  | case2 rest cur fields _ =>
    simp only [rlLoop]
    exact lt_of_le_of_lt (rlLoop_snd_length_le _ _ _ _) (by simp; omega)
  | case3 rest inQ cur fields _ _ =>
    simp only [rlLoop]
    exact lt_of_le_of_lt (rlLoop_snd_length_le _ _ _ _) (by simp)
  | case4 rest cur fields _ =>
    simp only [rlLoop]
    exact lt_of_le_of_lt (rlLoop_snd_length_le _ _ _ _) (by simp)
  | case5 rest cur fields => simp [rlLoop]; omega
  | case6 rest cur fields => simp [rlLoop]
  | case7 rest cur fields _ => simp [rlLoop]
  | case8 ch rest inQ cur fields _ _ _ _ _ _ _ =>
    simp only [rlLoop]
    exact lt_of_le_of_lt (rlLoop_snd_length_le _ _ _ _) (by simp)

theorem parseRowsFuel_fuel_irrelevant (headers : List String) :
    ∀ (fuel₁ fuel₂ : Nat) (cs : List Char), cs.length < fuel₁ → cs.length < fuel₂ →
      parseRowsFuel headers fuel₁ cs = parseRowsFuel headers fuel₂ cs := by
  intro fuel₁
  induction fuel₁ with
  | zero => intro fuel₂ cs h1 _; omega
  | succ n ih =>
    intro fuel₂ cs h1 h2
    cases fuel₂ with
    | zero => omega
    | succ m =>
      cases cs with
      | nil => rfl
      | cons c rest =>
        simp only [parseRowsFuel]
        split
        · rfl
        · have hlt := rlLoop_snd_length_lt (c :: rest) false "" [] (by simp)
          rw [ih m (readLineAsFields (c :: rest)).2
            (by simpa [readLineAsFields] using lt_of_lt_of_le hlt (by simpa using h1))
            (by simpa [readLineAsFields] using lt_of_lt_of_le hlt (by simpa using h2))]

theorem stringPush_ne_empty (s : String) (c : Char) : s.push c ≠ "" := by
  simp [String.push, String.ext_iff]

theorem rlLoop_fst_nil (cs : List Char) (inQ : Bool) (cur : String)
    (fields : List String) (h : (rlLoop cs inQ cur fields).1 = []) :
    fields = [] ∧ cur = "" ∧
      (cs = [] ∨ cs = ['"'] ∨ (inQ = false ∧ cs = ['"', '"'])) := by
  induction cs, inQ, cur, fields using rlLoop.induct with
  | case1 x cur fields =>
    simp only [rlLoop] at h
    split at h
    · simp at h
    · rename_i hg
      push_neg at hg
      exact ⟨h, hg.1, Or.inl rfl⟩
  | case2 rest cur fields ih =>
    simp only [rlLoop] at h
    exact absurd (ih h).2.1 (stringPush_ne_empty cur '"')
  | case3 rest inQ cur fields hside ih =>
    simp only [rlLoop] at h
    obtain ⟨hf, hc, hcs⟩ := ih h
    refine ⟨hf, hc, ?_⟩
    rcases hcs with h1 | h1 | h1
    · exact Or.inr (Or.inl (by rw [h1]))
    · have : inQ = false := by
        by_contra hq
        exact hside [] (by rw [h1]) (by simpa using hq)
      exact Or.inr (Or.inr ⟨this, by rw [h1]⟩)
    · obtain ⟨hq, h1⟩ := h1
      have : inQ = true := by simpa using hq
      exact absurd (hside ['"'] (by rw [h1]) this) id
  | case4 rest cur fields ih =>
    simp only [rlLoop] at h
    exact absurd (ih h).1 (by simp)
  | case5 rest cur fields =>
    simp only [rlLoop] at h
    split at h <;> simp at h
  | case6 rest cur fields =>
    simp only [rlLoop] at h
    split at h <;> simp at h
  | case7 rest cur fields hside =>
    simp only [rlLoop] at h
    split at h <;> simp at h
  | case8 ch rest inQ cur fields h1 h2 h3 h4 h5 h6 ih =>
    simp only [rlLoop] at h
    exact absurd (ih h).2.1 (stringPush_ne_empty cur ch)

/-- C3 counterexample: an input whose first line has no content does not make
`parseCSVText` fail — the header scan returns one empty field, the header
check `headerFields.length === 0` passes, and a record keyed by the empty
header is returned. -/
theorem c3_parse_empty_header_refuted :
    parseCSVText "\nx" = .ok [[("", "x")]] ∧
    exceptIsError (parseCSVText "\nx") = false :=
  ⟨rfl, rfl⟩

/-- C3 amended: `parseCSVText` fails with the `No headers found in CSV` error
exactly when the BOM-stripped input is empty or is a bare `"` or `""` (the
only inputs whose header scan yields no field at all); in particular empty
input fails, but an input whose first line is merely empty does not. -/
theorem c3_parse_error_characterization (text : String) :
    exceptIsError (parseCSVText text) = true ↔
      (stripBom text.data = [] ∨ stripBom text.data = ['"'] ∨
        stripBom text.data = ['"', '"']) := by
  constructor
  · intro h
    by_cases hc : (readLineAsFields (stripBom text.data)).1.length = 0
    · have h0 : (rlLoop (stripBom text.data) false "" []).1 = [] :=
        List.length_eq_zero.mp hc
      rcases (rlLoop_fst_nil _ _ _ _ h0).2.2 with h1 | h1 | h1
      · exact Or.inl h1
      · exact Or.inr (Or.inl h1)
      · exact Or.inr (Or.inr h1.2)
    · simp [parseCSVText, hc, exceptIsError] at h
  · intro h
    rcases h with h | h | h <;>
      simp [parseCSVText, h, readLineAsFields, rlLoop, exceptIsError]

theorem toJsDouble_ne_nan (sign : Int) (v : Nat) : toJsDouble sign v ≠ .nan := by
  unfold toJsDouble
  split
  · simp
  · split <;> simp

theorem JsNum.isNaN_eq_false {j : JsNum} (h : j ≠ .nan) : j.isNaN = false := by
  cases j <;> simp_all [JsNum.isNaN]

theorem jsParseInt10_nan_iff (s : String) :
    jsParseInt10 s = .nan ↔ signedDigitStart s = false := by
  unfold jsParseInt10 signedDigitStart
  cases hd : s.data.dropWhile isJsSpace with
  | nil => simp
  | cons c rest =>
    by_cases hm : c = '-'
    · subst hm
      cases rest with
      | nil => simp
      | cons d rest2 =>
        by_cases hdig : d.isDigit
        · simp [List.takeWhile, hdig, toJsDouble_ne_nan]
        · simp [List.takeWhile, hdig]
    · by_cases hp : c = '+'
      · subst hp
        cases rest with
        | nil => simp
        | cons d rest2 =>
          by_cases hdig : d.isDigit
          · simp [List.takeWhile, hdig, toJsDouble_ne_nan]
          · simp [List.takeWhile, hdig]
      · by_cases hdig : c.isDigit
        · simp [List.takeWhile, hdig, hm, hp, toJsDouble_ne_nan]
        · simp [List.takeWhile, hdig, hm, hp]

/-- C2 counterexample: the record with trimmed `age` field `"30abc"` — not a
string of decimal digits — is not rejected: `parseInt('30abc', 10)` is `30`,
so the mapper returns a `Document` with age 30. -/
theorem c2_mapper_accepts_nondigit_age :
    jsTrim "30abc" = "30abc" ∧
    ("30abc".data.all Char.isDigit) = false ∧
    (mapRecordToDb
        [("name.firstName", "A"), ("name.lastName", "B"), ("age", "30abc")]).toOption.isSome
      = true ∧
    (mapRecordToDb
        [("name.firstName", "A"), ("name.lastName", "B"), ("age", "30abc")]).toOption.map
        Document.age = some (JsNum.finite 30) :=
  ⟨rfl, rfl, rfl, rfl⟩

/-- C2 amended: the mapper fails exactly when the trimmed `name.firstName` or
`name.lastName` is blank, the trimmed `age` is blank, or the trimmed `age`
does not start (after an optional sign) with a decimal digit — the condition
under which `parseInt(age, 10)` is `NaN`.  Trailing non-numeric content after
at least one digit, and overlong digit strings, are accepted with the numeric
prefix parsed. -/
theorem c2_mapper_error_iff (rec : FlatRecord) :
    exceptIsError (mapRecordToDb rec) = true ↔
      (jsTrim ((objGet rec "name.firstName").getD "") = "" ∨
       jsTrim ((objGet rec "name.lastName").getD "") = "" ∨
       jsTrim ((objGet rec "age").getD "") = "" ∨
       signedDigitStart (jsTrim ((objGet rec "age").getD "")) = false) := by
  by_cases h1 : jsTrim ((objGet rec "name.firstName").getD "") = "" ∨
      jsTrim ((objGet rec "name.lastName").getD "") = "" ∨
      jsTrim ((objGet rec "age").getD "") = ""
  · simp only [mapRecordToDb, if_pos h1, exceptIsError]
    tauto
  · by_cases hp : jsParseInt10 (jsTrim ((objGet rec "age").getD "")) = .nan
    · have hn : (jsParseInt10 (jsTrim ((objGet rec "age").getD ""))).isNaN = true := by
        rw [hp]
        rfl
      simp only [mapRecordToDb, if_neg h1, hn, if_true, exceptIsError]
      have := (jsParseInt10_nan_iff _).mp hp
      tauto
    · have hn := JsNum.isNaN_eq_false hp
      simp only [mapRecordToDb, if_neg h1, hn, Bool.false_eq_true, if_false, exceptIsError]
      constructor
      · intro h
        exact absurd h (by simp)
      · intro h
        rcases h with h | h | h | h
        · exact absurd h (by tauto)
        · exact absurd h (by tauto)
        · exact absurd h (by tauto)
        · exact absurd ((jsParseInt10_nan_iff _).mpr h) hp

set_option maxRecDepth 10000 in
/-- C4 counterexample: an age field of 309 nines — whose value exceeds the
largest finite double — passes the `Number.isNaN` check (`parseInt` returns
`Infinity`, not `NaN`) and the mapper constructs a Document whose `age` is
not a finite integer. -/
theorem c4_infinite_age_accepted :
    (mapRecordToDb [("name.firstName", "A"), ("name.lastName", "B"),
        ("age", String.mk (List.replicate 309 '9'))]).toOption.map Document.age
      = some JsNum.posInf := by
  decide

/-- C4 amended: every Document the mapper returns has `name` equal to the
trimmed first and last names joined by a single space, with both parts
(hence the whole name) non-empty, and `age` exactly the double `parseInt`
produced — never `NaN` (that much is validated), but with no finiteness
check: the parsed digit value is stored exactly when it is below `2^53`,
rounded to the nearest double when larger, and as an infinity on overflow. -/
theorem c4_document_invariant (rec : FlatRecord) (d : Document)
    (h : mapRecordToDb rec = .ok d) :
    d.name = jsTrim ((objGet rec "name.firstName").getD "") ++ " " ++
      jsTrim ((objGet rec "name.lastName").getD "") ∧
    jsTrim ((objGet rec "name.firstName").getD "") ≠ "" ∧
    jsTrim ((objGet rec "name.lastName").getD "") ≠ "" ∧
    d.name ≠ "" ∧
    d.age = jsParseInt10 (jsTrim ((objGet rec "age").getD "")) ∧
    d.age ≠ JsNum.nan ∧
    (∀ v : Nat, v < 2 ^ 53 → roundDoubleNat v = some v) := by
  simp only [mapRecordToDb] at h
  split at h
  · exact absurd h (by simp)
  · rename_i hcond
    push_neg at hcond
    obtain ⟨h1, h2, h3⟩ := hcond
    split at h
    · exact absurd h (by simp)
    · rename_i hnn
      obtain rfl : _ = d := Except.ok.inj h
      refine ⟨rfl, h1, h2, ?_, rfl, ?_, ?_⟩
      · intro he
        have hd : (jsTrim ((objGet rec "name.firstName").getD "") ++ " " ++
            jsTrim ((objGet rec "name.lastName").getD "")) = "" := he
        have hd2 := congrArg String.data hd
        rw [String.data_append, String.data_append,
          show (" " : String).data = [' '] from rfl,
          show ("" : String).data = ([] : List Char) from rfl] at hd2
        simp at hd2
      · intro he
        exact hnn (by rw [show (jsParseInt10 (jsTrim ((objGet rec "age").getD ""))) =
          JsNum.nan from he]; rfl)
      · intro v hv
        unfold roundDoubleNat
        rw [if_pos hv]

/-- C4 witness: the amended theorem applied to a concrete record and, for
the sub-`2^53` exactness conjunct, to a concrete small value. -/
theorem c4_document_invariant_witness :
    mapRecordToDb [("name.firstName", " A "), ("name.lastName", "B"), ("age", "3")] =
      .ok { name := "A B", age := JsNum.finite 3, address := none,
            additional_info := none } ∧
    ({ name := "A B", age := JsNum.finite 3, address := none,
       additional_info := none } : Document).name ≠ "" ∧
    ({ name := "A B", age := JsNum.finite 3, address := none,
       additional_info := none } : Document).age ≠ JsNum.nan ∧
    roundDoubleNat 42 = some 42 :=
  ⟨rfl,
    (c4_document_invariant
      [("name.firstName", " A "), ("name.lastName", "B"), ("age", "3")]
      { name := "A B", age := JsNum.finite 3, address := none, additional_info := none }
      rfl).2.2.2.1,
    (c4_document_invariant
      [("name.firstName", " A "), ("name.lastName", "B"), ("age", "3")]
      { name := "A B", age := JsNum.finite 3, address := none, additional_info := none }
      rfl).2.2.2.2.2.1,
    (c4_document_invariant
      [("name.firstName", " A "), ("name.lastName", "B"), ("age", "3")]
      { name := "A B", age := JsNum.finite 3, address := none, additional_info := none }
      rfl).2.2.2.2.2.2 42 (by decide)⟩

theorem dropTrailing_idem (p : Char → Bool) (l : List Char) :
    dropTrailing p (dropTrailing p l) = dropTrailing p l := by
  induction l with
  | nil => rfl
  | cons c rest ih =>
    cases hr : dropTrailing p rest with
    | nil =>
      by_cases hc : p c
      · simp [dropTrailing, hr, hc]
      · simp [dropTrailing, hr, hc]
    | cons x xs =>
      have h2 : dropTrailing p (x :: xs) = x :: xs := by
        rw [← hr, ih]
      have h1 : dropTrailing p (c :: rest) = c :: x :: xs := by
        rw [dropTrailing.eq_2, hr]
      have h3 : dropTrailing p (c :: x :: xs) = c :: x :: xs := by
        rw [dropTrailing.eq_2, h2]
      rw [h1, h3]

theorem dropWhile_head_false {p : Char → Bool} {c : Char} {t : List Char}
    (h : (c :: t).dropWhile p = c :: t) : p c = false := by
  have := List.dropWhile_eq_self_iff.mp h (by simp)
  simpa using this

theorem dropWhile_dropTrailing_fix (p : Char → Bool) (X : List Char)
    (hX : X.dropWhile p = X) :
    (dropTrailing p X).dropWhile p = dropTrailing p X := by
  cases X with
  | nil => rfl
  | cons c t =>
    have hc := dropWhile_head_false hX
    simp only [dropTrailing]
    cases hr : dropTrailing p t with
    | nil => simp [hc, List.dropWhile_cons]
    | cons x xs => simp [hc, List.dropWhile_cons]

theorem jsTrim_idem (s : String) : jsTrim (jsTrim s) = jsTrim s := by
  show (⟨dropTrailing isJsSpace ((dropTrailing isJsSpace
      (s.data.dropWhile isJsSpace)).dropWhile isJsSpace)⟩ : String) = _
  rw [dropWhile_dropTrailing_fix isJsSpace _ (List.dropWhile_idempotent _ _),
    dropTrailing_idem]
  rfl

theorem objSet_mem (obj : List (String × String)) (k v : String)
    (kv : String × String) (h : kv ∈ objSet obj k v) : kv = (k, v) ∨ kv ∈ obj := by
  unfold objSet at h
  split at h
  · rcases List.mem_map.mp h with ⟨p, hp, he⟩
    by_cases hpk : p.1 = k
    · rw [if_pos hpk] at he
      exact Or.inl he.symm
    · rw [if_neg hpk] at he
      exact Or.inr (he ▸ hp)
  · rcases List.mem_append.mp h with h' | h'
    · exact Or.inr h'
    · exact Or.inl (by simpa using h')

theorem buildRecAux_values (headers fields : List String) (ks : List Nat)
    (acc : FlatRecord) (hacc : ∀ kv ∈ acc, jsTrim kv.2 = kv.2) :
    ∀ kv ∈ ks.foldl
        (fun r k =>
          objSet r (headers.getD k "")
            (match fields.get? k with
             | some f => jsTrim f
             | none => ""))
        acc,
      jsTrim kv.2 = kv.2 := by
  induction ks generalizing acc with
  | nil => exact hacc
  | cons k ks ih =>
    intro kv hkv
    rw [List.foldl_cons] at hkv
    refine ih _ ?_ kv hkv
    intro kv' hkv'
    rcases objSet_mem _ _ _ _ hkv' with he | hm
    · rw [he]
      cases hf : fields.get? k with
      | some f => simpa [hf] using jsTrim_idem f
      | none => simp [hf]; rfl
    · exact hacc _ hm

theorem buildRec_values (headers fields : List String) (kv : String × String)
    (h : kv ∈ buildRec headers fields) : jsTrim kv.2 = kv.2 :=
  buildRecAux_values headers fields _ [] (by simp) kv h

theorem parseRowsFuel_mem (headers : List String) (fuel : Nat) (cs : List Char)
    (r : FlatRecord) (h : r ∈ parseRowsFuel headers fuel cs) :
    ∃ fields, r = buildRec headers fields := by
  induction fuel generalizing cs with
  | zero => simp [parseRowsFuel] at h
  | succ fuel ih =>
    cases cs with
    | nil => simp [parseRowsFuel] at h
    | cons c cs' =>
      simp only [parseRowsFuel] at h
      split at h
      · simp at h
      · rcases List.mem_cons.mp h with he | hm
        · exact ⟨_, he⟩
        · exact ih _ hm

/-- C9: field trimming is applied after quote removal — every value stored
in a parsed record is a fixed point of trimming, so quoting cannot preserve
surrounding whitespace: a quoted field `" a "` stores `"a"` and a quoted
field of pure whitespace stores `""`. -/
theorem c9_trim_after_quotes :
    (∀ (text : String) (recs : List FlatRecord), parseCSVText text = .ok recs →
      ∀ r ∈ recs, ∀ kv ∈ r, jsTrim kv.2 = kv.2) ∧
    parseCSVText "h\n\" a \"" = .ok [[("h", "a")]] ∧
    parseCSVText "h\n\" \"" = .ok [[("h", "")]] := by
  refine ⟨?_, rfl, rfl⟩
  intro text recs h r hr kv hkv
  simp only [parseCSVText] at h
  split at h
  · exact absurd h (by simp)
  · obtain rfl : _ = recs := Except.ok.inj h
    obtain ⟨fields, rfl⟩ := parseRowsFuel_mem _ _ _ _ hr
    exact buildRec_values _ _ _ hkv

/-- C9 witness: the general part applied to a concrete parse. -/
theorem c9_trim_after_quotes_witness : jsTrim "a" = "a" :=
  c9_trim_after_quotes.1 "h\n\" a \"" [[("h", "a")]] c9_trim_after_quotes.2.1
    [("h", "a")] (by simp) ("h", "a") (by simp)

/-- C10: an interior empty line is not discarded — it parses to a record
mapping every header key to the empty string; any all-empty record fails the
mapper's mandatory-field validation, so in the import loop the row is skipped
and only the valid row's document survives to be persisted. -/
theorem c10_interior_empty_line :
    parseCSVText "name.firstName,name.lastName,age\n\nA,B,3" =
      .ok [[("name.firstName", ""), ("name.lastName", ""), ("age", "")],
        [("name.firstName", "A"), ("name.lastName", "B"), ("age", "3")]] ∧
    (∀ r : FlatRecord, (∀ kv ∈ r, kv.2 = "") →
      exceptIsError (mapRecordToDb r) = true) ∧
    validDocs [[("name.firstName", ""), ("name.lastName", ""), ("age", "")],
        [("name.firstName", "A"), ("name.lastName", "B"), ("age", "3")]] =
      [{ name := "A B", age := JsNum.finite 3, address := none, additional_info := none }] := by
  refine ⟨rfl, ?_, rfl⟩
  intro r hall
  have hfn : (objGet r "name.firstName").getD "" = "" := by
    unfold objGet
    cases hf : r.find? (fun p => p.1 = "name.firstName") with
    | none => rfl
    | some p =>
      have hm := List.mem_of_find?_eq_some hf
      simp [hall p hm]
  simp [mapRecordToDb, hfn, exceptIsError, show jsTrim "" = "" from rfl]

/-- C10 witness: the all-empty record produced by the empty line is rejected
by the mapper. -/
theorem c10_interior_empty_line_witness :
    exceptIsError (mapRecordToDb
      [("name.firstName", ""), ("name.lastName", ""), ("age", "")]) = true :=
  c10_interior_empty_line.2.1
    [("name.firstName", ""), ("name.lastName", ""), ("age", "")] (by decide)

theorem jset_ne_nil (obj : List (String × JValue)) (k : String) (v : JValue) :
    jset obj k v ≠ [] := by
  unfold jset
  split
  · rename_i hany
    rcases List.any_eq_true.mp hany with ⟨p, hp, _⟩
    intro h
    rw [List.map_eq_nil_iff] at h
    subst h
    simp at hp
  · simp

theorem splitOnChar_ne_nil (sep : Char) (cs : List Char) :
    splitOnChar sep cs ≠ [] := by
  cases cs with
  | nil => simp [splitOnChar]
  | cons c rest =>
    simp only [splitOnChar]
    split
    · simp
    · split <;> simp

theorem jsSplitDots_ne_nil (s : String) : jsSplitDots s ≠ [] := by
  unfold jsSplitDots
  simp [splitOnChar_ne_nil]

theorem setNested_ne_nil_of_parts (obj : List (String × JValue))
    (parts : List String) (value : String) (hp : parts ≠ []) :
    setNested obj parts value ≠ [] := by
  match parts with
  | [p] => exact jset_ne_nil _ _ _
  | p :: q :: rest => exact jset_ne_nil _ _ _

theorem setNested_ne_nil_of_obj (obj : List (String × JValue))
    (parts : List String) (value : String) (ho : obj ≠ []) :
    setNested obj parts value ≠ [] := by
  match parts with
  | [] => exact ho
  | [p] => exact jset_ne_nil _ _ _
  | p :: q :: rest => exact jset_ne_nil _ _ _

theorem foldl_mapFoldStep_addr_nil_iff (entries : List (String × String))
    (acc : List (String × JValue) × List (String × JValue)) :
    (entries.foldl mapFoldStep acc).1 = [] ↔
      acc.1 = [] ∧ ∀ kv ∈ entries,
        (kv.1 = "name.firstName" ∨ kv.1 = "name.lastName" ∨ kv.1 = "age") ∨
        jsStartsWith kv.1 "address." = false := by
  induction entries generalizing acc with
  | nil => simp
  | cons kv rest ih =>
    rw [List.foldl_cons, ih]
    by_cases h1 : kv.1 = "name.firstName" ∨ kv.1 = "name.lastName" ∨ kv.1 = "age"
    · simp [mapFoldStep, h1]
    · by_cases h2 : jsStartsWith kv.1 "address." = true
      · have hne : setNested acc.1 (jsSplitDots (jsSlice kv.1 8)) kv.2 ≠ [] :=
          setNested_ne_nil_of_parts _ _ _ (jsSplitDots_ne_nil _)
        simp [mapFoldStep, h1, h2, hne]
      · simp [mapFoldStep, h1, h2]

theorem foldl_mapFoldStep_addl_nil_iff (entries : List (String × String))
    (acc : List (String × JValue) × List (String × JValue)) :
    (entries.foldl mapFoldStep acc).2 = [] ↔
      acc.2 = [] ∧ ∀ kv ∈ entries,
        (kv.1 = "name.firstName" ∨ kv.1 = "name.lastName" ∨ kv.1 = "age") ∨
        jsStartsWith kv.1 "address." = true := by
  induction entries generalizing acc with
  | nil => simp
  | cons kv rest ih =>
    rw [List.foldl_cons, ih]
    by_cases h1 : kv.1 = "name.firstName" ∨ kv.1 = "name.lastName" ∨ kv.1 = "age"
    · simp [mapFoldStep, h1]
    · by_cases h2 : jsStartsWith kv.1 "address." = true
      · simp [mapFoldStep, h1, h2]
      · have hne : setNested acc.2 (jsSplitDots kv.1) kv.2 ≠ [] :=
          setNested_ne_nil_of_parts _ _ _ (jsSplitDots_ne_nil _)
        simp [mapFoldStep, h1, h2, hne]

/-- C8: in every Document the mapper returns, `address` is null iff the
source record had no non-consumed key starting with `address.`, and
`additionalInfo` is null iff the record had no non-consumed key outside the
`address.*` family. -/
theorem c8_null_iff_no_keys (rec : FlatRecord) (d : Document)
    (h : mapRecordToDb rec = .ok d) :
    (d.address = none ↔
      ¬ ∃ kv ∈ rec,
        ¬(kv.1 = "name.firstName" ∨ kv.1 = "name.lastName" ∨ kv.1 = "age") ∧
        jsStartsWith kv.1 "address." = true) ∧
    (d.additional_info = none ↔
      ¬ ∃ kv ∈ rec,
        ¬(kv.1 = "name.firstName" ∨ kv.1 = "name.lastName" ∨ kv.1 = "age") ∧
        jsStartsWith kv.1 "address." = false) := by
  simp only [mapRecordToDb] at h
  split at h
  · exact absurd h (by simp)
  · split at h
    · exact absurd h (by simp)
    · obtain rfl : _ = d := Except.ok.inj h
      constructor
      · show (if (List.foldl mapFoldStep ([], []) rec).1.length ≠ 0
            then some (List.foldl mapFoldStep ([], []) rec).1 else none) = none ↔ _
        rw [ite_eq_right_iff]
        constructor
        · intro hz
          have h0 : (List.foldl mapFoldStep ([], []) rec).1 = [] := by
            by_cases hc : (List.foldl mapFoldStep ([], []) rec).1.length ≠ 0
            · exact absurd (hz hc) (by simp)
            · simpa [List.length_eq_zero] using hc
          have := (foldl_mapFoldStep_addr_nil_iff rec ([], [])).mp h0
          rintro ⟨kv, hkv, hnc, hsw⟩
          rcases this.2 kv hkv with hc | hc
          · exact hnc hc
          · rw [hsw] at hc
            exact absurd hc (by simp)
        · intro hne hc
          exfalso
          have h0 : (List.foldl mapFoldStep ([], []) rec).1 = [] := by
            rw [foldl_mapFoldStep_addr_nil_iff]
            refine ⟨rfl, fun kv hkv => ?_⟩
            by_cases hcons : kv.1 = "name.firstName" ∨ kv.1 = "name.lastName" ∨ kv.1 = "age"
            · exact Or.inl hcons
            · by_cases hsw : jsStartsWith kv.1 "address." = true
              · exact absurd (hne ⟨kv, hkv, hcons, hsw⟩) id
              · exact Or.inr (by simpa using hsw)
          exact hc (by rw [h0]; rfl)
      · show (if (List.foldl mapFoldStep ([], []) rec).2.length ≠ 0
            then some (List.foldl mapFoldStep ([], []) rec).2 else none) = none ↔ _
        rw [ite_eq_right_iff]
        constructor
        · intro hz
          have h0 : (List.foldl mapFoldStep ([], []) rec).2 = [] := by
            by_cases hc : (List.foldl mapFoldStep ([], []) rec).2.length ≠ 0
            · exact absurd (hz hc) (by simp)
            · simpa [List.length_eq_zero] using hc
          have := (foldl_mapFoldStep_addl_nil_iff rec ([], [])).mp h0
          rintro ⟨kv, hkv, hnc, hsw⟩
          rcases this.2 kv hkv with hc | hc
          · exact hnc hc
          · rw [hsw] at hc
            exact absurd hc (by simp)
        · intro hne hc
          exfalso
          have h0 : (List.foldl mapFoldStep ([], []) rec).2 = [] := by
            rw [foldl_mapFoldStep_addl_nil_iff]
            refine ⟨rfl, fun kv hkv => ?_⟩
            by_cases hcons : kv.1 = "name.firstName" ∨ kv.1 = "name.lastName" ∨ kv.1 = "age"
            · exact Or.inl hcons
            · by_cases hsw : jsStartsWith kv.1 "address." = true
              · exact Or.inr hsw
              · exact absurd (hne ⟨kv, hkv, hcons, by simpa using hsw⟩) id
          exact hc (by rw [h0]; rfl)

/-- C8 witness: the theorem applied to a record with only the consumed keys. -/
theorem c8_null_iff_no_keys_witness :
    ¬ ∃ kv ∈ ([("name.firstName", "A"), ("name.lastName", "B"), ("age", "3")] : FlatRecord),
      ¬(kv.1 = "name.firstName" ∨ kv.1 = "name.lastName" ∨ kv.1 = "age") ∧
      jsStartsWith kv.1 "address." = true :=
  (c8_null_iff_no_keys [("name.firstName", "A"), ("name.lastName", "B"), ("age", "3")]
    { name := "A B", age := JsNum.finite 3, address := none, additional_info := none } rfl).1.mp rfl

theorem validDocs_cons_ok {r : FlatRecord} {rest : List FlatRecord} {d : Document}
    (hm : mapRecordToDb r = .ok d) : validDocs (r :: rest) = d :: validDocs rest := by
  simp [validDocs, List.filterMap_cons, hm, Except.toOption]

theorem validDocs_cons_err {r : FlatRecord} {rest : List FlatRecord} {e : String}
    (hm : mapRecordToDb r = .error e) : validDocs (r :: rest) = validDocs rest := by
  simp [validDocs, List.filterMap_cons, hm, Except.toOption]

theorem importBatchesAux_join (B : Nat) (recs : List FlatRecord)
    (batch : List Document) :
    (importBatchesAux B recs batch).flatten = batch ++ validDocs recs := by
  induction recs generalizing batch with
  | nil =>
    unfold importBatchesAux
    split
    · simp [validDocs]
    · rename_i hg
      have : batch = [] := by
        simpa [List.length_eq_zero] using hg
      simp [this, validDocs]
  | cons r rest ih =>
    cases hm : mapRecordToDb r with
    | error e =>
      simp only [importBatchesAux, hm]
      rw [ih, validDocs_cons_err hm]
    | ok d =>
      simp only [importBatchesAux, hm]
      split
      · rw [List.flatten_cons, ih, validDocs_cons_ok hm]
        simp
      · rw [ih, validDocs_cons_ok hm]
        simp

theorem importBatchesAux_length (B : Nat) (hB : 1 ≤ B) (recs : List FlatRecord)
    (batch : List Document) (hlt : batch.length < B) :
    (importBatchesAux B recs batch).length =
      (batch.length + (validDocs recs).length + (B - 1)) / B := by
  induction recs generalizing batch with
  | nil =>
    unfold importBatchesAux
    simp only [validDocs, List.filterMap_nil, List.length_nil, Nat.add_zero]
    split
    · rename_i hg
      have h1 : (batch.length + (B - 1)) / B = 1 := by
        rw [Nat.div_eq_sub_div (by omega) (by omega), Nat.div_eq_of_lt (by omega)]
      rw [h1]
      simp
    · rename_i hg
      rw [Nat.div_eq_of_lt (by omega)]
      simp
  | cons r rest ih =>
    cases hm : mapRecordToDb r with
    | error e =>
      simp only [importBatchesAux, hm]
      rw [ih batch hlt, validDocs_cons_err hm]
    | ok d =>
      simp only [importBatchesAux, hm]
      split
      · rename_i hge
        have hge' : B ≤ batch.length + 1 := by simpa using hge
        rw [List.length_cons, ih [] (by simp; omega), validDocs_cons_ok hm,
          List.length_cons, List.length_nil, Nat.zero_add]
        rw [show batch.length + ((validDocs rest).length + 1) + (B - 1) =
          ((validDocs rest).length + (B - 1)) + B from by omega]
        rw [Nat.add_div_right _ (by omega)]
      · rename_i hlt2
        rw [ih (batch ++ [d]) (by simpa using hlt2), validDocs_cons_ok hm]
        simp only [List.length_append, List.length_cons, List.length_nil]
        congr 1
        omega

theorem importBatchesAux_sizes (B : Nat) (recs : List FlatRecord)
    (batch : List Document) (hlt : batch.length < B) :
    ∀ b ∈ importBatchesAux B recs batch, b.length ≤ B ∧ b ≠ [] := by
  induction recs generalizing batch with
  | nil =>
    unfold importBatchesAux
    split
    · rename_i hg
      intro b hb
      rw [List.mem_singleton] at hb
      subst hb
      exact ⟨le_of_lt hlt, by simpa [← List.length_pos] using hg⟩
    · intro b hb
      simp at hb
  | cons r rest ih =>
    cases hm : mapRecordToDb r with
    | error e =>
      simp only [importBatchesAux, hm]
      exact ih batch hlt
    | ok d =>
      simp only [importBatchesAux, hm]
      split
      · rename_i hge
        intro b hb
        rcases List.mem_cons.mp hb with he | hmem
        · subst he
          exact ⟨by simp; omega, by simp⟩
        · exact ih [] (by simp; omega) b hmem
      · rename_i hlt2
        exact ih (batch ++ [d]) (by simpa using hlt2)

/-- C5: for any record sequence and batch size `B ≥ 1`, the loader issues
exactly `⌈N/B⌉` insert statements where `N` is the number of successfully
mapped (non-skipped) documents, every batch has at most `B` rows (and is
non-empty, so `insertBatch` really issues a statement for it), and the rows
sent across all batches are exactly the `N` valid documents in order. -/
theorem c5_loader_batches (records : List FlatRecord) (B : Nat) (hB : 1 ≤ B) :
    (importBatches records B).length = ((validDocs records).length + (B - 1)) / B ∧
    ((importBatches records B).map insertBatchStatementCount).sum =
      ((validDocs records).length + (B - 1)) / B ∧
    (∀ b ∈ importBatches records B, b.length ≤ B ∧ b ≠ []) ∧
    (importBatches records B).flatten = validDocs records := by
  have hs := importBatchesAux_sizes B records [] (by simp; omega)
  have hl := importBatchesAux_length B hB records [] (by simp; omega)
  have hj := importBatchesAux_join B records []
  rw [List.nil_append] at hj
  simp only [List.length_nil, Nat.zero_add] at hl
  refine ⟨hl, ?_, hs, hj⟩
  have hone : ∀ b ∈ importBatches records B, insertBatchStatementCount b = 1 := by
    intro b hb
    unfold insertBatchStatementCount
    rw [if_neg (by simpa [List.length_eq_zero] using (hs b hb).2)]
  calc ((importBatches records B).map insertBatchStatementCount).sum
      = ((importBatches records B).map (fun _ => 1)).sum := by
        rw [List.map_congr_left hone]
    _ = (importBatches records B).length := by
        simp [List.map_const']
    _ = ((validDocs records).length + (B - 1)) / B := hl

/-- C5 witness: three of four records map successfully, so batch size 2
yields `⌈3/2⌉ = 2` statements. -/
theorem c5_loader_batches_witness :
    (importBatches
        [[("name.firstName", "A"), ("name.lastName", "B"), ("age", "3")],
         [("name.firstName", "C"), ("name.lastName", "D"), ("age", "x")],
         [("name.firstName", "E"), ("name.lastName", "F"), ("age", "4")],
         [("name.firstName", "G"), ("name.lastName", "H"), ("age", "5")]] 2).flatten =
      validDocs
        [[("name.firstName", "A"), ("name.lastName", "B"), ("age", "3")],
         [("name.firstName", "C"), ("name.lastName", "D"), ("age", "x")],
         [("name.firstName", "E"), ("name.lastName", "F"), ("age", "4")],
         [("name.firstName", "G"), ("name.lastName", "H"), ("age", "5")]] ∧
    (importBatches
        [[("name.firstName", "A"), ("name.lastName", "B"), ("age", "3")],
         [("name.firstName", "C"), ("name.lastName", "D"), ("age", "x")],
         [("name.firstName", "E"), ("name.lastName", "F"), ("age", "4")],
         [("name.firstName", "G"), ("name.lastName", "H"), ("age", "5")]] 2).length = 2 := by
  refine ⟨(c5_loader_batches _ 2 (by omega)).2.2.2, ?_⟩
  rw [(c5_loader_batches
    [[("name.firstName", "A"), ("name.lastName", "B"), ("age", "3")],
     [("name.firstName", "C"), ("name.lastName", "D"), ("age", "x")],
     [("name.firstName", "E"), ("name.lastName", "F"), ("age", "4")],
     [("name.firstName", "G"), ("name.lastName", "H"), ("age", "5")]] 2 (by omega)).1]
  rfl

theorem sendBatches_ok_iff (f : Nat → Bool) (bs : List (List Document)) :
    ∀ (k : Nat) (p q : List Document),
      sendBatches f k p bs = .ok q ↔
        ((∀ j, k ≤ j → j < k + bs.length → f j = false) ∧ q = p ++ bs.flatten) := by
  induction bs with
  | nil =>
    intro k p q
    simp only [sendBatches, List.length_nil, Nat.add_zero, List.flatten_nil,
      List.append_nil]
    constructor
    · intro h
      exact ⟨fun j h1 h2 => by omega, (Except.ok.inj h).symm⟩
    · rintro ⟨-, rfl⟩
      rfl
  | cons b rest ih =>
    intro k p q
    simp only [sendBatches]
    split
    · rename_i hf
      constructor
      · intro h
        exact absurd h (by simp)
      · rintro ⟨hall, -⟩
        exact absurd (hall k le_rfl (by simp)) (by simp [hf])
    · rename_i hf
      rw [ih (k + 1) (p ++ b) q]
      constructor
      · rintro ⟨hall, rfl⟩
        refine ⟨fun j h1 h2 => ?_, by simp⟩
        rcases Nat.eq_or_lt_of_le h1 with rfl | hlt
        · simpa using hf
        · exact hall j (by omega) (by simp at h2 ⊢; omega)
      · rintro ⟨hall, rfl⟩
        exact ⟨fun j h1 h2 => hall j (by omega) (by simp; omega), by simp⟩

/-- C1: one import run shares a single transaction — if any batch `k` of the
`M` issued batches fails, the run surfaces an error and the committed rows
are exactly what they were before the run (zero rows of this run are
visible); if no batch fails, the run commits and exactly the run's valid
documents are appended. -/
theorem c1_import_atomicity (init : List Document) (records : List FlatRecord)
    (B : Nat) (failsAt : Nat → Bool) :
    ((∃ k, 1 ≤ k ∧ k ≤ (importBatches records B).length ∧ failsAt k = true) →
      ∃ k', (importCsvRun init records B failsAt).1 = .error k' ∧
        (importCsvRun init records B failsAt).2 = init) ∧
    ((∀ k, 1 ≤ k → k ≤ (importBatches records B).length → failsAt k = false) →
      importCsvRun init records B failsAt = (.ok (), init ++ validDocs records)) := by
  constructor
  · rintro ⟨k, hk1, hk2, hkf⟩
    unfold importCsvRun
    cases hs : sendBatches failsAt 1 [] (importBatches records B) with
    | ok pending =>
      obtain ⟨hall, -⟩ := (sendBatches_ok_iff failsAt (importBatches records B) 1 [] pending).mp hs
      exact absurd (hall k hk1 (by omega)) (by simp [hkf])
    | error k' => exact ⟨k', rfl, rfl⟩
  · intro hall
    unfold importCsvRun
    have hok : sendBatches failsAt 1 [] (importBatches records B) =
        .ok (validDocs records) := by
      rw [sendBatches_ok_iff failsAt (importBatches records B) 1 []]
      refine ⟨fun j h1 h2 => hall j h1 (by omega), ?_⟩
      rw [List.nil_append]
      unfold importBatches
      rw [importBatchesAux_join]
      rfl
    rw [hok]

/-- C1 witness: with two one-row batches against an initially one-row store,
a failure at batch 2 leaves the store unchanged and surfaces an error, while
a failure-free run commits both documents. -/
theorem c1_import_atomicity_witness :
    (∃ k', (importCsvRun [{ name := "Z Z", age := JsNum.finite 1, address := none, additional_info := none }]
        [[("name.firstName", "A"), ("name.lastName", "B"), ("age", "3")],
         [("name.firstName", "C"), ("name.lastName", "D"), ("age", "4")]] 1
        (fun k => k == 2)).1 = .error k' ∧
      (importCsvRun [{ name := "Z Z", age := JsNum.finite 1, address := none, additional_info := none }]
        [[("name.firstName", "A"), ("name.lastName", "B"), ("age", "3")],
         [("name.firstName", "C"), ("name.lastName", "D"), ("age", "4")]] 1
        (fun k => k == 2)).2 =
        [{ name := "Z Z", age := JsNum.finite 1, address := none, additional_info := none }]) ∧
    importCsvRun [{ name := "Z Z", age := JsNum.finite 1, address := none, additional_info := none }]
        [[("name.firstName", "A"), ("name.lastName", "B"), ("age", "3")],
         [("name.firstName", "C"), ("name.lastName", "D"), ("age", "4")]] 1
        (fun _ => false) =
      (.ok (), [{ name := "Z Z", age := JsNum.finite 1, address := none, additional_info := none }] ++
        validDocs
          [[("name.firstName", "A"), ("name.lastName", "B"), ("age", "3")],
           [("name.firstName", "C"), ("name.lastName", "D"), ("age", "4")]]) :=
  ⟨(c1_import_atomicity
      [{ name := "Z Z", age := JsNum.finite 1, address := none, additional_info := none }]
      [[("name.firstName", "A"), ("name.lastName", "B"), ("age", "3")],
       [("name.firstName", "C"), ("name.lastName", "D"), ("age", "4")]] 1
      (fun k => k == 2)).1
      ⟨2, by omega, by rw [show (importBatches
        [[("name.firstName", "A"), ("name.lastName", "B"), ("age", "3")],
         [("name.firstName", "C"), ("name.lastName", "D"), ("age", "4")]] 1).length = 2
        from rfl], rfl⟩,
    (c1_import_atomicity
      [{ name := "Z Z", age := JsNum.finite 1, address := none, additional_info := none }]
      [[("name.firstName", "A"), ("name.lastName", "B"), ("age", "3")],
       [("name.firstName", "C"), ("name.lastName", "D"), ("age", "4")]] 1
      (fun _ => false)).2 (fun _ _ _ => rfl)⟩
